/-
Verification of the statement-parsing and aggregation engine of the
Financial-Statement-Analyzer repository.

The Python sources `api/services/transaction_parser.py` and
`api/services/calculator.py` are shallowly embedded below: Python strings
become `List Char`, floats become `ℚ` (with explicit rounding to two
decimals where the code calls `round(x, 2)`), `None`-able values become
`Option`, and the module-level compiled regular expressions become
executable matchers over `List Char` that implement the exact pattern with
the backtracking preference order of the `re` engine (leftmost match,
greedy quantifiers, alternatives tried left to right).
-/
import Mathlib

set_option maxRecDepth 4000

namespace FSA

/-! ## Python string primitives -/

/-- Characters matched by the `re` class `\s` (ASCII). -/
def isSpaceChar (c : Char) : Bool :=
  c = ' ' || c = '\t' || c = '\n' || c = '\r' || c = '\x0b' || c = '\x0c'

/-- Characters matched by the `re` class `\d`. -/
def isDigitChar (c : Char) : Bool := c.isDigit

/-- Characters matched by the `re` class `\w` (word characters, ASCII). -/
def isWordChar (c : Char) : Bool := c.isAlphanum || c = '_'

/-- A Lean string literal as a character list (Python `str`). -/
def str (s : String) : List Char := s.data

/-- Python `str.strip()`: drop whitespace at both ends. -/
def stripChars (l : List Char) : List Char :=
  ((l.dropWhile isSpaceChar).reverse.dropWhile isSpaceChar).reverse

/-- Python `str.lower()` (ASCII case folding). -/
def lowerList (l : List Char) : List Char := l.map Char.toLower

/-- Python `text.split(sep)` for a single-character separator, keeping
empty fragments; `"".split` yields one empty fragment. -/
def splitOnChar (sep : Char) : List Char → List (List Char)
  | [] => [[]]
  | c :: t =>
    let rest := splitOnChar sep t
    if c = sep then [] :: rest
    else match rest with
      | [] => [[c]]
      | h :: r => (c :: h) :: r

/-- Python `text.split(newline)`. -/
def splitLines (l : List Char) : List (List Char) := splitOnChar '\n' l

/-- Is `p` a starting segment of `l` (Python `str.startswith`)? -/
def startsWithSeg : List Char → List Char → Bool
  | _, [] => true
  | [], _ :: _ => false
  | c :: t, p :: q => (c = p) && startsWithSeg t q

/-- Does `needle` occur inside `hay` (Python `in` on strings)? -/
def containsSeg : List Char → List Char → Bool
  | [], needle => needle.isEmpty
  | c :: t, needle => startsWithSeg (c :: t) needle || containsSeg t needle

/-- Digits of a character list read as a natural number. -/
def digitsToNat (l : List Char) : Nat :=
  l.foldl (fun n c => 10 * n + (c.toNat - '0'.toNat)) 0

/-! ## Matcher combinators

A pattern is modelled as a function returning, for an attempted match
anchored at the head of the input, all suffixes that can remain after the
match, in the backtracking preference order of the `re` engine (greedy:
longest first; alternation: left alternative first).  A match exists iff
the list is non-empty, and the engine's chosen match is the head. -/

def PatM : Type := List Char → List (List Char)

/-- The empty pattern (matches zero characters). -/
def pEps : PatM := fun l => [l]

/-- A single character satisfying `f`. -/
def pChar (f : Char → Bool) : PatM := fun l =>
  match l with
  | [] => []
  | c :: t => if f c then [t] else []

/-- Concatenation of two patterns. -/
def pSeq (p q : PatM) : PatM := fun l => (p l).flatMap q

/-- Alternation, left alternative preferred. -/
def pAlt (p q : PatM) : PatM := fun l => p l ++ q l

/-- A run of `\d{lo,hi}` digits, greedy (longest first). -/
def pDigits (lo hi : Nat) : PatM := fun l =>
  let n := min (l.takeWhile isDigitChar).length hi
  if n < lo then []
  else (List.range (n + 1 - lo)).map (fun i => l.drop (n - i))

/-- `\d+`, greedy. -/
def pDigitsPlus : PatM := fun l =>
  let n := (l.takeWhile isDigitChar).length
  (List.range n).map (fun i => l.drop (n - i))

/-- `\s+`, greedy. -/
def pSpacesPlus : PatM := fun l =>
  let n := (l.takeWhile isSpaceChar).length
  (List.range n).map (fun i => l.drop (n - i))

/-- Kleene star of `p`, greedy, with explicit fuel; iterations that fail to
consume input are cut off (the patterns starred below always consume). -/
def pStarFuel (p : PatM) : Nat → PatM
  | 0 => pEps
  | fuel + 1 => fun l =>
    ((p l).flatMap (fun l2 =>
      if l2.length < l.length then pStarFuel p fuel l2 else [])) ++ [l]

/-- Kleene star of `p`, greedy. -/
def pStar (p : PatM) : PatM := fun l => pStarFuel p l.length l

/-- A literal word, case-insensitively. -/
def pLitCI (w : List Char) : PatM := fun l =>
  let rec go : List Char → List Char → List (List Char)
    | rest, [] => [rest]
    | [], _ :: _ => []
    | c :: t, w :: ws => if c.toLower = w.toLower then go t ws else []
  go l w

/-! ## The amount pattern

`AMOUNT_PATTERN = (\d{1,3}(?:,\d{2,3})*\.\d{2}|\d+\.\d{2})\s*(Cr|Dr)?`
(IGNORECASE). -/

/-- `,\d{2,3}` — one grouping segment. -/
def commaGroup : PatM := pSeq (pChar (· = ',')) (pDigits 2 3)

/-- First alternative of the amount pattern: `\d{1,3}(?:,\d{2,3})*\.\d{2}`. -/
def amountAlt1 : PatM :=
  pSeq (pDigits 1 3) (pSeq (pStar commaGroup) (pSeq (pChar (· = '.')) (pDigits 2 2)))

/-- Second alternative: `\d+\.\d{2}`. -/
def amountAlt2 : PatM :=
  pSeq pDigitsPlus (pSeq (pChar (· = '.')) (pDigits 2 2))

/-- Group 1 of the amount pattern. -/
def amountCore : PatM := pAlt amountAlt1 amountAlt2

/-- Attempt `AMOUNT_PATTERN` anchored at the head of `l`.  On success,
returns the text of group 1, group 2 upper-cased (the `Cr`/`Dr` suffix, as
the code reads it), and the suffix of `l` after the whole match (after the
greedy `\s*` and the optional suffix). -/
def amountMatchAt (l : List Char) : Option (List Char × Option (List Char) × List Char) :=
  match amountCore l with
  | [] => none
  | rest :: _ =>
    let numChars := l.take (l.length - rest.length)
    let afterSpaces := rest.dropWhile isSpaceChar
    match afterSpaces with
    | c :: r :: t =>
      if c.toLower = 'c' && r.toLower = 'r' then some (numChars, some (str "CR"), t)
      else if c.toLower = 'd' && r.toLower = 'r' then some (numChars, some (str "DR"), t)
      else some (numChars, none, afterSpaces)
    | _ => some (numChars, none, afterSpaces)

/-- `AMOUNT_PATTERN.finditer`: all non-overlapping matches, scanning left
to right, as (group 1, upper-cased group 2) pairs. -/
def amountMatchesAux : Nat → List Char → List (List Char × Option (List Char))
  | 0, _ => []
  | _ + 1, [] => []
  | fuel + 1, c :: t =>
    match amountMatchAt (c :: t) with
    | some (num, suf, rest) =>
      (num, suf) ::
        (if rest.length < t.length + 1 then amountMatchesAux fuel rest
         else amountMatchesAux fuel t)
    | none => amountMatchesAux fuel t

def amountMatches (l : List Char) : List (List Char × Option (List Char)) :=
  amountMatchesAux l.length l

/-- `AMOUNT_PATTERN.search` as a Boolean. -/
def amountSearch (l : List Char) : Bool := !(amountMatches l).isEmpty

/-- `AMOUNT_PATTERN.sub(empty, l)`: remove every match (the whole match,
trailing `\s*` and suffix included). -/
def amountSubAux : Nat → List Char → List Char
  | 0, l => l
  | _ + 1, [] => []
  | fuel + 1, c :: t =>
    match amountMatchAt (c :: t) with
    | some (_, _, rest) =>
      if rest.length < t.length + 1 then amountSubAux fuel rest
      else c :: amountSubAux fuel t
    | none => c :: amountSubAux fuel t

def amountSub (l : List Char) : List Char := amountSubAux l.length l

/-! ## The date pattern

`DATE_PATTERN` is, inside word boundaries, the alternation of a numeric
day/month/year triple separated by dash, slash or dot
(`\d{1,2} sep \d{1,2} sep \d{2,4}` with sep one of dash, slash, dot) and
`\d{1,2}[-\s](Jan|...|Dec)[a-z]*[-\s]\d{2,4}` (IGNORECASE). -/

def pDateSep : PatM := pChar (fun c => c = '-' || c = '/' || c = '.')

def pMonthSep : PatM := pChar (fun c => c = '-' || isSpaceChar c)

def monthNames : List (List Char) :=
  [str "Jan", str "Feb", str "Mar", str "Apr", str "May", str "Jun",
   str "Jul", str "Aug", str "Sep", str "Oct", str "Nov", str "Dec"]

def pMonth : PatM := fun l => monthNames.flatMap (fun m => pLitCI m l)

def pAsciiLetter : PatM := pChar (fun c => 'a' ≤ c.toLower && c.toLower ≤ 'z')

def dateAlt1 : PatM :=
  pSeq (pDigits 1 2) (pSeq pDateSep (pSeq (pDigits 1 2) (pSeq pDateSep (pDigits 2 4))))

def dateAlt2 : PatM :=
  pSeq (pDigits 1 2) (pSeq pMonthSep (pSeq pMonth
    (pSeq (pStar pAsciiLetter) (pSeq pMonthSep (pDigits 2 4)))))

def dateCore : PatM := pAlt dateAlt1 dateAlt2

/-- Attempt `DATE_PATTERN` anchored at the head of `l`.  `prevWord` says
whether the character just before this position is a word character (for
the leading `\b`; every alternative starts with a digit).  The trailing
`\b` requires the first unconsumed character, if any, to be a non-word
character (every alternative ends with a digit).  Returns (group 1, rest). -/
def dateMatchAt (prevWord : Bool) (l : List Char) : Option (List Char × List Char) :=
  if prevWord then none
  else
    match (dateCore l).filter (fun rest =>
        match rest with
        | [] => true
        | c :: _ => !isWordChar c) with
    | [] => none
    | rest :: _ => some (l.take (l.length - rest.length), rest)

/-- `DATE_PATTERN.search`: the first match (group 1), scanning left to
right with word-boundary context. -/
def dateSearchAux : Nat → Bool → List Char → Option (List Char)
  | 0, _, _ => none
  | _ + 1, _, [] => none
  | fuel + 1, prevWord, c :: t =>
    match dateMatchAt prevWord (c :: t) with
    | some (m, _) => some m
    | none => dateSearchAux fuel (isWordChar c) t

def dateSearch (l : List Char) : Option (List Char) := dateSearchAux l.length false l

/-- `DATE_PATTERN.sub(empty, l)`: remove every match; scanning resumes
after each match with the boundary context of the last matched character. -/
def dateSubAux : Nat → Bool → List Char → List Char
  | 0, _, l => l
  | _ + 1, _, [] => []
  | fuel + 1, prevWord, c :: t =>
    match dateMatchAt prevWord (c :: t) with
    | some (m, rest) =>
      if rest.length < t.length + 1 then
        dateSubAux fuel (match m.getLast? with
          | some d => isWordChar d
          | none => prevWord) rest
      else c :: dateSubAux fuel (isWordChar c) t
    | none => c :: dateSubAux fuel (isWordChar c) t

def dateSub (l : List Char) : List Char := dateSubAux l.length false l

/-! ## transaction_parser.py : amount and date helpers -/

/-- `parse_amount`: strip commas and whitespace and read the decimal
number; malformed input yields `0.0` (the `except ValueError` branch). -/
def parse_amount (l : List Char) : ℚ :=
  let cleaned := stripChars (l.filter (· ≠ ','))
  let intPart := cleaned.takeWhile (· ≠ '.')
  let fracPart := (cleaned.dropWhile (· ≠ '.')).drop 1
  if cleaned ≠ [] && cleaned.all (fun c => isDigitChar c || c = '.') &&
      cleaned.count '.' ≤ 1 && intPart.all isDigitChar && fracPart.all isDigitChar then
    (digitsToNat intPart : ℚ) + (digitsToNat fracPart : ℚ) / ((10 : ℚ) ^ fracPart.length)
  else 0

/-- `extract_all_amounts`: every amount match on the line with its
upper-cased `Cr`/`Dr` suffix, zero amounts discarded. -/
def extract_all_amounts (line : List Char) : List (ℚ × Option (List Char)) :=
  (amountMatches line).filterMap (fun m =>
    let amount := parse_amount m.1
    if amount > 0 then some (amount, m.2) else none)

/-- `extract_date`: the first date match on a line. -/
def extract_date (line : List Char) : Option (List Char) := dateSearch line

/-- `normalize_date`: replace dash and dot separators by a slash. -/
def normalize_date (l : List Char) : List Char :=
  l.map (fun c => if c = '-' || c = '.' then '/' else c)

/-- `is_potential_transaction_line`: at least 10 characters after
trimming, a date match and an amount match. -/
def is_potential_transaction_line (line : List Char) : Bool :=
  let stripped := stripChars line
  if stripped.isEmpty || stripped.length < 10 then false
  else (dateSearch stripped).isSome && amountSearch stripped

/-! ## transaction_parser.py : statement summary extraction -/

structure StatementSummary where
  opening_balance : Option ℚ
  closing_balance : Option ℚ
  total_debits : Option ℚ
  total_credits : Option ℚ
deriving DecidableEq, Repr

/-- State threaded through the keyword scan of `extract_statement_summary`:
(opening_balance, closing_balance, total_debits, total_credits). -/
abbrev SummaryState : Type := Option ℚ × Option ℚ × Option ℚ × Option ℚ

/-- One line of the keyword loop of `extract_statement_summary`.  `lines`
and `i` give access to the following line for the no-amount fallbacks. -/
def summaryLineStep (lines : List (List Char)) (i : Nat) (s : SummaryState) :
    SummaryState :=
  let line := lines.getD i []
  let lower := lowerList line
  let (ob, cb, td, tc) := s
  -- total debits first (with opening balance possibly co-located)
  let (td, ob) :=
    if td = none && containsSeg lower (str "total") && containsSeg lower (str "debit") then
      let amounts := extract_all_amounts line
      match amounts with
      | [] => (td, ob)
      | a :: restA =>
        (some a.1,
         if ob = none && containsSeg lower (str "opening") && amounts.length ≥ 2 then
           some ((restA.headD a).1)
         else ob)
    else (td, ob)
  -- total credits (with closing balance possibly co-located)
  let (tc, cb) :=
    if tc = none && containsSeg lower (str "total") && containsSeg lower (str "credit") then
      let amounts := extract_all_amounts line
      match amounts with
      | [] => (tc, cb)
      | a :: restA =>
        (some a.1,
         if cb = none && containsSeg lower (str "closing") && amounts.length ≥ 2 then
           some ((restA.headD a).1)
         else cb)
    else (tc, cb)
  -- opening balance by keyword
  let ob :=
    if ob = none && containsSeg lower (str "opening") && containsSeg lower (str "balance") &&
        !containsSeg lower (str "total") then
      match extract_all_amounts line with
      | a :: restA => some ((restA.getLastD a).1)
      | [] =>
        if i + 1 < lines.length then
          match extract_all_amounts (lines.getD (i + 1) []) with
          | a :: _ => some a.1
          | [] => ob
        else ob
    else ob
  -- closing balance by keyword
  let cb :=
    if cb = none && containsSeg lower (str "closing") && containsSeg lower (str "balance") &&
        !containsSeg lower (str "total") then
      match extract_all_amounts line with
      | a :: restA => some ((restA.getLastD a).1)
      | [] =>
        if i + 1 < lines.length then
          match extract_all_amounts (lines.getD (i + 1) []) with
          | a :: restA => some ((restA.getLastD a).1)
          | [] => cb
        else cb
    else cb
  (ob, cb, td, tc)

/-- The fallback regex `keyword \s* balance \s* [:-]? \s* (amount)`
(IGNORECASE, first-alternative amount format only), anchored at the head
of `l`; returns the captured amount. -/
def kwBalanceAt (kw : List Char) (l : List Char) : Option ℚ :=
  match pLitCI kw l with
  | [] => none
  | r1 :: _ =>
    let r2 := r1.dropWhile isSpaceChar
    match pLitCI (str "balance") r2 with
    | [] => none
    | r3 :: _ =>
      let r4 := r3.dropWhile isSpaceChar
      let r5 := match r4 with
        | c :: t => if c = ':' || c = '-' then t.dropWhile isSpaceChar else r4
        | [] => r4
      match amountAlt1 r5 with
      | [] => none
      | rest :: _ => some (parse_amount (r5.take (r5.length - rest.length)))

/-- `re.search` for the fallback pattern over the whole text. -/
def kwBalanceSearchAux (kw : List Char) : Nat → List Char → Option ℚ
  | 0, _ => none
  | _ + 1, [] => none
  | fuel + 1, c :: t =>
    match kwBalanceAt kw (c :: t) with
    | some q => some q
    | none => kwBalanceSearchAux kw fuel t

def kwBalanceSearch (kw text : List Char) : Option ℚ :=
  kwBalanceSearchAux kw text.length text

/-- All anchored matches of the first-alternative amount format, paired as
(group text, rest), in preference order. -/
def amtOpts (l : List Char) : List (List Char × List Char) :=
  (amountAlt1 l).map (fun rest => (l.take (l.length - rest.length), rest))

/-- The HDFC-style six-field summary pattern
`amount \s+ \d+ \s+ \d+ \s+ amount \s+ amount \s+ amount`, anchored;
returns (opening, total debits, total credits, closing). -/
def hdfcAt (l : List Char) : Option (ℚ × ℚ × ℚ × ℚ) :=
  (((amtOpts l).flatMap fun g1 =>
    (pSpacesPlus g1.2).flatMap fun r2 =>
    (pDigitsPlus r2).flatMap fun r3 =>
    (pSpacesPlus r3).flatMap fun r4 =>
    (pDigitsPlus r4).flatMap fun r5 =>
    (pSpacesPlus r5).flatMap fun r6 =>
    (amtOpts r6).flatMap fun g4 =>
    (pSpacesPlus g4.2).flatMap fun r8 =>
    (amtOpts r8).flatMap fun g5 =>
    (pSpacesPlus g5.2).flatMap fun r10 =>
    (amtOpts r10).map fun g6 =>
      (parse_amount g1.1, parse_amount g4.1, parse_amount g5.1, parse_amount g6.1)).head?)

/-- `re.search` for the six-field pattern over the whole text. -/
def hdfcSearchAux : Nat → List Char → Option (ℚ × ℚ × ℚ × ℚ)
  | 0, _ => none
  | _ + 1, [] => none
  | fuel + 1, c :: t =>
    match hdfcAt (c :: t) with
    | some r => some r
    | none => hdfcSearchAux fuel t

def hdfcSearch (text : List Char) : Option (ℚ × ℚ × ℚ × ℚ) :=
  hdfcSearchAux text.length text

/-- The four optional summary fields as `extract_statement_summary`
computes them: keyword scan, then the two direct fallback patterns, then
the six-field fallback.  Order: (opening, closing, debits, credits). -/
def summaryFields (text : List Char) : SummaryState :=
  let lines := splitLines text
  let (ob, cb, td, tc) :=
    (List.range lines.length).foldl (fun s i => summaryLineStep lines i s)
      ((none, none, none, none) : SummaryState)
  let ob := match ob with
    | some v => some v
    | none => kwBalanceSearch (str "opening") text
  let cb := match cb with
    | some v => some v
    | none => kwBalanceSearch (str "closing") text
  match hdfcSearch text with
  | some (g1, g4, g5, g6) =>
    (match ob with | some v => some v | none => some g1,
     match cb with | some v => some v | none => some g6,
     match td with | some v => some v | none => some g4,
     match tc with | some v => some v | none => some g5)
  | none => (ob, cb, td, tc)

/-- `extract_statement_summary`: a summary is produced only when an
opening or a closing balance was resolved. -/
def extract_statement_summary (text : List Char) : Option StatementSummary :=
  let f := summaryFields text
  if f.1.isSome || f.2.1.isSome then
    some ⟨f.1, f.2.1, f.2.2.1, f.2.2.2⟩
  else none

/-! ## transaction_parser.py : line classification -/

def always_skip_patterns : List (List Char) :=
  [str "a/c open date", str "open date", str "expected amb", str "joint holders",
   str "account status", str "account number", str "cust id", str "pr.code",
   str "br.code", str "od limit", str "limit :", str "currency :",
   str "account open", str "not applicable"]

def skip_keywords : List (List Char) :=
  [str "page", str "account", str "a/c", str "branch", str "address", str "city",
   str "state", str "phone", str "email", str "ifsc", str "micr", str "nomination",
   str "customer", str "statement", str "generated", str "registered",
   str "disclaimer", str "contents", str "gstin", str "linked", str "deposits",
   str "loan", str "locker", str "facility", str "scheme", str "no records",
   str "si ", str "sl ", str "particulars", str "narration", str "chq",
   str "withdrawal", str "deposit", str "balance", str "date", str "ref",
   str "details of", str "name &", str "summary", str "total", str "opening",
   str "closing", str "end of"]

/-- The `re.match` of the page-number pattern `digits \s* (of \s* digits)?`
anchored at both ends. -/
def isPageNumberLine (s : List Char) : Bool :=
  let ds := s.takeWhile isDigitChar
  if ds.isEmpty then false
  else
    let r := (s.drop ds.length).dropWhile isSpaceChar
    if r.isEmpty then true
    else if startsWithSeg r (str "of") then
      let r2 := (r.drop 2).dropWhile isSpaceChar
      let ds2 := r2.takeWhile isDigitChar
      !ds2.isEmpty && (r2.drop ds2.length).isEmpty
    else false

/-- The `re.match` of the separator pattern: only characters from the rule
set, at least one. -/
def isSeparatorLine (s : List Char) : Bool :=
  !s.isEmpty && s.all (fun c => c = '=' || c = '-' || c = '_' || c = '*' || c = '#')

/-- `is_header_or_footer`. -/
def is_header_or_footer (line : List Char) : Bool :=
  let stripped := lowerList (stripChars line)
  if stripped.isEmpty then true
  else if always_skip_patterns.any (fun p => containsSeg stripped p) then true
  else if skip_keywords.any (fun kw =>
      (startsWithSeg stripped kw ||
        (containsSeg stripped kw && stripped.length < 50)) &&
      (!amountSearch line || containsSeg stripped (str "total") ||
        containsSeg stripped (str "balance"))) then true
  else if isPageNumberLine stripped then true
  else if isSeparatorLine stripped then true
  else false

/-- `find_transaction_lines`: candidate transaction lines with their
0-based line index. -/
def find_transaction_lines (text : List Char) : List (Nat × List Char) :=
  (splitLines text).enum.filterMap (fun p =>
    let stripped := stripChars p.2
    if stripped.isEmpty then none
    else if is_header_or_footer stripped then none
    else if is_potential_transaction_line stripped then some (p.1, stripped)
    else none)

/-! ## transaction_parser.py : per-line transaction parsing -/

/-- A parsed transaction before the balance-delta resolver runs
(the dict built by `parse_transaction_line`). -/
structure RawTxn where
  date : List Char
  description : List Char
  amount : Option ℚ
  closing_balance : ℚ
  txnType : List Char
deriving DecidableEq, Repr

/-- Python `s.split()` (no argument): split on whitespace runs, no empty
fragments.  `acc` carries the current word, reversed. -/
def splitWordsAux : List Char → List Char → List (List Char)
  | [], acc => if acc.isEmpty then [] else [acc.reverse]
  | c :: t, acc =>
    if isSpaceChar c then
      if acc.isEmpty then splitWordsAux t []
      else acc.reverse :: splitWordsAux t []
    else splitWordsAux t (c :: acc)

def splitWords (l : List Char) : List (List Char) := splitWordsAux l []

/-- Python `join(' ', s.split())`: collapse whitespace runs. -/
def normalizeSpaces (l : List Char) : List Char :=
  match splitWords l with
  | [] => []
  | w :: ws => ws.foldl (fun acc w2 => acc ++ [' '] ++ w2) w

/-- The `re.sub` of a leading serial number `^\d+\s+`. -/
def stripSerial (l : List Char) : List Char :=
  let ds := l.takeWhile isDigitChar
  if ds.isEmpty then l
  else
    let r := l.drop ds.length
    let ws := r.takeWhile isSpaceChar
    if ws.isEmpty then l else r.drop ws.length

/-- The type and amount assignment of `parse_transaction_line` from the
extracted amount list: the last amount is the closing balance; with three
or more amounts the last three are read as withdrawal/deposit/balance
columns; with exactly two, the first amount and its suffix decide. -/
def classifyAmounts (amounts : List (ℚ × Option (List Char))) : List Char × Option ℚ :=
  let transaction_amount : Option ℚ :=
    if amounts.length ≥ 2 then some ((amounts.getD (amounts.length - 2) (0, none)).1)
    else none
  if amounts.length ≥ 3 then
    let withdrawal := (amounts.getD (amounts.length - 3) (0, none)).1
    let deposit := (amounts.getD (amounts.length - 2) (0, none)).1
    if withdrawal > 0 && deposit == 0 then (str "debit", some withdrawal)
    else if deposit > 0 && withdrawal == 0 then (str "credit", some deposit)
    else (str "unknown", transaction_amount)
  else if amounts.length == 2 then
    let amt_suffix := (amounts.getD 0 (0, none)).2
    (match amt_suffix with
     | some suf => if suf = str "CR" then str "credit" else str "debit"
     | none => str "unknown",
     some ((amounts.getD 0 (0, none)).1))
  else (str "unknown", transaction_amount)

/-- `parse_transaction_line`.  The `next_line` argument exists in the
source but is unused by the body. -/
def parse_transaction_line (line prev_line _next_line : List Char) : Option RawTxn :=
  let stripped := stripChars line
  if stripped.isEmpty then none
  else
    match extract_date stripped with
    | none => none
    | some date =>
      let amounts := extract_all_amounts stripped
      match amounts.getLast? with
      | none => none
      | some lastAmt =>
        let closing_balance := lastAmt.1
        let cls := classifyAmounts amounts
        let txn_type := cls.1
        let transaction_amount := cls.2
        let description := stripped
        let description := dateSub description
        let description := amountSub description
        let description := stripSerial description
        let description := normalizeSpaces description
        let description :=
          if description.length < 3 && !prev_line.isEmpty then
            let prev_stripped := stripChars prev_line
            if !is_header_or_footer prev_stripped &&
                !is_potential_transaction_line prev_stripped then
              prev_stripped ++ [' '] ++ description
            else description
          else description
        some ⟨normalize_date date, stripChars description, transaction_amount,
              closing_balance, txn_type⟩

/-- `determine_transaction_type`: direction from the movement of the
running balance. -/
def determine_transaction_type (current_balance previous_balance : ℚ) : List Char :=
  if current_balance > previous_balance then str "credit"
  else if current_balance < previous_balance then str "debit"
  else str "unknown"

/-! ## transaction_parser.py : main parsing pipeline -/

/-- A finalized transaction (after the balance-delta resolver). -/
structure Txn where
  date : List Char
  description : List Char
  reference : List Char
  amount : ℚ
  closing_balance : ℚ
  txnType : List Char
  category : Option (List Char)
deriving DecidableEq, Repr

/-- The result dictionary of `parse_transactions`. -/
structure ParseResult where
  is_financial_statement : Bool
  opening_balance : Option ℚ
  closing_balance : Option ℚ
  total_debits : Option ℚ
  total_credits : Option ℚ
  transactions : List Txn
deriving DecidableEq, Repr

/-- The transaction lines used by `parse_transactions`: the classifier
result, or, when it is empty, the relaxed retry (any line with a date
match and an amount match, stripped). -/
def transactionLinesWithRetry (text : List Char) : List (Nat × List Char) :=
  let tlines := find_transaction_lines text
  if tlines.isEmpty then
    (splitLines text).enum.filterMap (fun p =>
      if (dateSearch p.2).isSome && amountSearch p.2 then some (p.1, stripChars p.2)
      else none)
  else tlines

/-- Append a continuation line to the description of the last parsed
transaction, when one exists. -/
def appendToLastDesc (acc : List RawTxn) (txt : List Char) : List RawTxn :=
  match acc.getLast? with
  | none => acc
  | some last =>
    acc.dropLast ++ [{ last with description := last.description ++ [' '] ++ txt }]

/-- Append the possibly-parsed transaction of one line to the
accumulator. -/
def parseStepAcc (acc : List RawTxn) (line prev_line next_line : List Char) :
    List RawTxn :=
  match parse_transaction_line line prev_line next_line with
  | some p => acc ++ [p]
  | none => acc

/-- The raw-transaction loop of `parse_transactions` (the
`pending_description` variable in the source is initialized to `None` and
never set, so the previous line is always the physical previous line). -/
def parseRawLoop (lines : List (List Char)) :
    List (Nat × List Char) → List RawTxn → List RawTxn
  | [], acc => acc
  | (line_num, line) :: rest, acc =>
    let prev_line := if line_num > 0 then lines.getD (line_num - 1) [] else []
    let next_line :=
      if line_num + 1 < lines.length then lines.getD (line_num + 1) [] else []
    let acc := parseStepAcc acc line prev_line next_line
    let acc :=
      if !next_line.isEmpty && !is_potential_transaction_line next_line &&
          !is_header_or_footer next_line then
        appendToLastDesc acc (stripChars next_line)
      else acc
    parseRawLoop lines rest acc

/-- One step of the balance-delta resolver (the body of the second loop of
`parse_transactions`). -/
def resolveOne (previous_balance : Option ℚ) (txn : RawTxn) : Txn :=
  let current_balance := txn.closing_balance
  let txn_type :=
    if txn.txnType = str "unknown" then
      match previous_balance with
      | some p => determine_transaction_type current_balance p
      | none => txn.txnType
    else txn.txnType
  let amount : Option ℚ :=
    match txn.amount, previous_balance with
    | none, some p => some |current_balance - p|
    | a, _ => a
  { date := txn.date
    description := stripChars txn.description
    reference := []
    amount := amount.getD 0
    closing_balance := current_balance
    txnType := txn_type
    category := none }

/-- The balance-delta resolver pass: `previous_balance` advances to the
current trailing balance after every transaction. -/
def resolvePass (previous_balance : Option ℚ) : List RawTxn → List Txn
  | [] => []
  | txn :: rest =>
    resolveOne previous_balance txn :: resolvePass (some txn.closing_balance) rest

/-- `parse_transactions`. -/
def parse_transactions (text : List Char) : ParseResult :=
  let summary := extract_statement_summary text
  let lines := splitLines text
  let transaction_lines := transactionLinesWithRetry text
  let raw_transactions := parseRawLoop lines transaction_lines []
  let previous_balance := match summary with
    | some s => s.opening_balance
    | none => none
  let transactions := resolvePass previous_balance raw_transactions
  let last_txn_closing := (transactions.getLast?).map (fun t => t.closing_balance)
  { is_financial_statement := decide (transactions.length > 0)
    opening_balance := match summary with
      | some s => s.opening_balance
      | none => none
    closing_balance := match last_txn_closing with
      | some c => some c
      | none => match summary with
        | some s => s.closing_balance
        | none => none
    total_debits := match summary with
      | some s => s.total_debits
      | none => none
    total_credits := match summary with
      | some s => s.total_credits
      | none => none
    transactions := transactions }

/-! ## calculator.py : financial aggregation

Python `round(x, 2)` is modelled as rounding at two decimal places over
`ℚ`; each transaction dictionary is modelled with its `amount`, `type` and
`category` values present (the `.get` defaults of the source apply to
missing keys, which a record embedding does not have), and the
`float(...)` coercions, which cannot fail on numeric input, are identities
on `ℚ`. -/

/-- `round(x, 2)`. -/
def round2 (x : ℚ) : ℚ := ((round (x * 100) : ℤ) : ℚ) / 100

/-- A transaction as consumed by `calculate_financials`. -/
structure CalcTxn where
  amount : ℚ
  txnType : List Char
  category : List Char
deriving DecidableEq, Repr

/-- The input dictionary of `calculate_financials` (after key
normalization between snake and camel case, which a record does not
distinguish). -/
structure CalcInput where
  is_financial_statement : Bool
  opening_balance : Option ℚ
  closing_balance : Option ℚ
  transactions : List CalcTxn
deriving DecidableEq, Repr

/-- The result dictionary of `calculate_financials`.  On the failure path
only `success` and `error` are populated; the success path of the source
leaves `error` unset. -/
structure CalcResult where
  success : Bool
  error : Option (List Char) := none
  openingBalance : ℚ := 0
  closingBalance : ℚ := 0
  totalIncome : ℚ := 0
  totalExpenses : ℚ := 0
  netChange : ℚ := 0
  transactions : List CalcTxn := []
  categoryBreakdown : List (List Char × ℚ) := []
  incomeBreakdown : List (List Char × ℚ) := []
  transactionCount : Nat := 0
deriving DecidableEq, Repr

/-- A Python dict update `d[cat] = d.get(cat, 0.0) + amt`, on an
insertion-ordered association list with unique keys (new keys are appended
at the end, as dict insertion order does). -/
def addToBreakdown : List (List Char × ℚ) → List Char → ℚ → List (List Char × ℚ)
  | [], cat, amt => [(cat, 0 + amt)]
  | (k, v) :: rest, cat, amt =>
    if k = cat then (k, v + amt) :: rest
    else (k, v) :: addToBreakdown rest cat amt

/-- One iteration of the totals loop of `calculate_financials`:
accumulator is (total_income, total_expenses, category_breakdown,
income_breakdown). -/
def calcStep (acc : ℚ × ℚ × List (List Char × ℚ) × List (List Char × ℚ))
    (txn : CalcTxn) : ℚ × ℚ × List (List Char × ℚ) × List (List Char × ℚ) :=
  let (total_income, total_expenses, category_breakdown, income_breakdown) := acc
  let amount := |txn.amount|
  let txn_type := lowerList txn.txnType
  let category := lowerList txn.category
  if txn_type = str "credit" then
    (total_income + amount, total_expenses, category_breakdown,
     addToBreakdown income_breakdown category amount)
  else
    (total_income, total_expenses + amount,
     addToBreakdown category_breakdown category amount, income_breakdown)

/-- The totals loop over all transactions. -/
def calcTotals (txns : List CalcTxn) :
    ℚ × ℚ × List (List Char × ℚ) × List (List Char × ℚ) :=
  txns.foldl calcStep (0, 0, [], [])

/-- Insert an entry into a list already sorted descending by value,
after all entries with a greater-or-equal value (so that ties keep their
first-seen order). -/
def insertDesc (x : List Char × ℚ) : List (List Char × ℚ) → List (List Char × ℚ)
  | [] => [x]
  | y :: t => if y.2 < x.2 then x :: y :: t else y :: insertDesc x t

/-- Python `sorted(items, key by value, reverse)` on a breakdown: a stable
sort, descending by value (a stable insertion sort produces the same list
as any stable sort under the same ordering). -/
def sortBreakdown (l : List (List Char × ℚ)) : List (List Char × ℚ) :=
  l.foldl (fun acc x => insertDesc x acc) []

/-- `calculate_financials`. -/
def calculate_financials (inp : CalcInput) : CalcResult :=
  if !inp.is_financial_statement then
    { success := false
      error := some (str "The uploaded document is not a valid bank statement. Please upload a bank statement PDF.") }
  else if inp.transactions.isEmpty then
    { success := true
      openingBalance := inp.opening_balance.getD 0
      closingBalance := inp.closing_balance.getD 0 }
  else
    let totals := calcTotals inp.transactions
    let total_income := round2 totals.1
    let total_expenses := round2 totals.2.1
    let category_breakdown := sortBreakdown (totals.2.2.1.map (fun p => (p.1, round2 p.2)))
    let income_breakdown := sortBreakdown (totals.2.2.2.map (fun p => (p.1, round2 p.2)))
    let opening_balance := inp.opening_balance.map round2
    let closing_balance := inp.closing_balance.map round2
    let closing_balance :=
      match opening_balance, closing_balance with
      | some ob, none => some (round2 (ob + total_income - total_expenses))
      | _, c => c
    { success := true
      openingBalance := opening_balance.getD 0
      closingBalance := closing_balance.getD 0
      totalIncome := total_income
      totalExpenses := total_expenses
      netChange := round2 (total_income - total_expenses)
      transactions := inp.transactions
      categoryBreakdown := category_breakdown
      incomeBreakdown := income_breakdown
      transactionCount := inp.transactions.length }

/-- The sum of the values of a breakdown mapping. -/
def sumVals (l : List (List Char × ℚ)) : ℚ := (l.map (fun p => p.2)).sum

/-! ## Claim C2 : the balance-delta resolver pass -/

/-- **C2**: the resolver pass processes the head transaction with the
carried `previous_balance` and continues with the head's trailing balance
as the new carried balance, for every transaction; an already-known
direction is kept; with a known previous balance an unknown direction
becomes credit when the trailing balance is greater, debit when smaller
and unknown when equal; and an unset amount becomes the absolute balance
difference. -/
theorem c2_resolver_step (prev : Option ℚ) (txn : RawTxn) (rest : List RawTxn) :
    resolvePass prev (txn :: rest) =
      resolveOne prev txn :: resolvePass (some txn.closing_balance) rest ∧
    (txn.txnType ≠ str "unknown" → (resolveOne prev txn).txnType = txn.txnType) ∧
    (∀ p : ℚ, prev = some p → txn.txnType = str "unknown" →
      ((p < txn.closing_balance → (resolveOne prev txn).txnType = str "credit") ∧
       (txn.closing_balance < p → (resolveOne prev txn).txnType = str "debit") ∧
       (txn.closing_balance = p → (resolveOne prev txn).txnType = str "unknown"))) ∧
    (∀ p : ℚ, prev = some p → txn.amount = none →
      (resolveOne prev txn).amount = |txn.closing_balance - p|) := by
  refine ⟨rfl, ?_, ?_, ?_⟩
  · intro h
    simp [resolveOne, h]
  · intro p hp hu
    subst hp
    refine ⟨?_, ?_, ?_⟩
    · intro hlt
      simp [resolveOne, hu, determine_transaction_type, hlt]
    · intro hlt
      have hng : ¬ p < txn.closing_balance := not_lt.mpr hlt.le
      simp [resolveOne, hu, determine_transaction_type, hlt, hng]
    · intro heq
      simp [resolveOne, hu, determine_transaction_type, heq]
  · intro p hp ha
    subst hp
    simp [resolveOne, ha]

/-- Witness for C2: the balance-inference scenario — previous balance
100000, a transaction with unknown direction, no amount and trailing
balance 95000 resolves to a debit of 5000. -/
theorem c2_resolver_step_witness :
    (resolveOne (some 100000) ⟨str "03/11/2025", str "CHQ", none, 95000, str "unknown"⟩).txnType
        = str "debit" ∧
    (resolveOne (some 100000) ⟨str "03/11/2025", str "CHQ", none, 95000, str "unknown"⟩).amount
        = |(95000 : ℚ) - 100000| := by
  have h := c2_resolver_step (some 100000)
    ⟨str "03/11/2025", str "CHQ", none, 95000, str "unknown"⟩ []
  exact ⟨(h.2.2.1 100000 rfl rfl).2.1 (by norm_num), h.2.2.2 100000 rfl rfl⟩

/-! ## Claim C3 : the three-column positional rule -/

/-- **C3** (divergence witness): on the spec's three-column line the code
produces amount 2000.00 but direction `unknown`, not `debit` — the
zero-amount filter of `extract_all_amounts` removes the `0.00` deposit
column, so the three-amount withdrawal/deposit branch of
`parse_transaction_line` never sees a zero column and cannot fire. -/
theorem c3_three_column_eval :
    parse_transaction_line (str "02/11/2025 ATM WDL 2000.00 0.00 148000.00") [] [] =
      some { date := str "02/11/2025", description := str "ATM WDL",
             amount := some 2000, closing_balance := 148000,
             txnType := str "unknown" } := by with_unfolding_all rfl

/-! ## Claim C4 : candidate transaction lines -/

/-- Modelled from the spec (§4.1): a line is a candidate transaction line
iff it has at least 10 characters after trimming, at least one date match
and at least one NON-ZERO amount match. -/
def candidateLineSpec (line : List Char) : Bool :=
  let stripped := stripChars line
  decide (10 ≤ stripped.length) && (dateSearch stripped).isSome &&
    !(extract_all_amounts stripped).isEmpty

/-- **C4** (counterexample): a line whose only amount-like token is
`0.00` alongside a date is accepted by the code, although the claim says
it must be rejected. -/
theorem c4_counterexample :
    is_potential_transaction_line (str "01/01/2024 x 0.00") = true ∧
    candidateLineSpec (str "01/01/2024 x 0.00") = false :=
  ⟨by with_unfolding_all rfl, by with_unfolding_all rfl⟩

/-- **C4** (amended): `is_potential_transaction_line` returns true iff the
trimmed line has at least 10 characters, a date match and at least one
amount match — zero amounts included. -/
theorem c4_amended_candidate (line : List Char) :
    is_potential_transaction_line line =
      (decide (10 ≤ (stripChars line).length) &&
        ((dateSearch (stripChars line)).isSome && amountSearch (stripChars line))) := by
  simp only [is_potential_transaction_line]
  split
  · next h =>
    rcases Bool.or_eq_true_iff.mp h with h1 | h1
    · have : (stripChars line).length = 0 := by
        simpa [List.isEmpty_iff_length_eq_zero] using h1
      simp [this]
    · have : ¬ (10 ≤ (stripChars line).length) := by
        have := of_decide_eq_true h1
        omega
      simp [this]
  · next h =>
    have h2 : ¬ ((stripChars line).isEmpty = true) ∧
        ¬ ((decide ((stripChars line).length < 10)) = true) := by
      constructor <;> intro hc <;> exact h (by simp [hc])
    have hlen : 10 ≤ (stripChars line).length := by
      have := h2.2
      by_contra hc
      exact this (by simpa using Nat.lt_of_not_le hc)
    simp [hlen]

/-! ## Claim C1 : aggregation by direction -/

/-- The sum of absolute amounts over the credit transactions of a list. -/
def sumCreditAbs (l : List CalcTxn) : ℚ :=
  ((l.filter (fun t => decide (lowerList t.txnType = str "credit"))).map
    (fun t => |t.amount|)).sum

/-- The sum of absolute amounts over the non-credit transactions of a
list (debit and any unresolved direction alike). -/
def sumNonCreditAbs (l : List CalcTxn) : ℚ :=
  ((l.filter (fun t => !decide (lowerList t.txnType = str "credit"))).map
    (fun t => |t.amount|)).sum

/-- The totals loop accumulates the credit sum into the income component
and the non-credit sum into the expense component. -/
theorem calcStep_foldl_totals (l : List CalcTxn) (i e : ℚ)
    (cb ib : List (List Char × ℚ)) :
    (List.foldl calcStep (i, e, cb, ib) l).1 = i + sumCreditAbs l ∧
    (List.foldl calcStep (i, e, cb, ib) l).2.1 = e + sumNonCreditAbs l := by
  induction l generalizing i e cb ib with
  | nil => simp [sumCreditAbs, sumNonCreditAbs]
  | cons t rest ih =>
    simp only [List.foldl_cons, calcStep]
    by_cases h : lowerList t.txnType = str "credit"
    · rw [if_pos h]
      refine ⟨?_, ?_⟩
      · rw [(ih _ _ _ _).1]
        have hs : sumCreditAbs (t :: rest) = |t.amount| + sumCreditAbs rest := by
          simp [sumCreditAbs, List.filter_cons, h]
        rw [hs]
        ring
      · rw [(ih _ _ _ _).2]
        have hs : sumNonCreditAbs (t :: rest) = sumNonCreditAbs rest := by
          simp [sumNonCreditAbs, List.filter_cons, h]
        rw [hs]
    · rw [if_neg h]
      refine ⟨?_, ?_⟩
      · rw [(ih _ _ _ _).1]
        have hs : sumCreditAbs (t :: rest) = sumCreditAbs rest := by
          simp [sumCreditAbs, List.filter_cons, h]
        rw [hs]
      · rw [(ih _ _ _ _).2]
        have hs : sumNonCreditAbs (t :: rest) = |t.amount| + sumNonCreditAbs rest := by
          simp [sumNonCreditAbs, List.filter_cons, h]
        rw [hs]
        ring

/-- The input refuting C1: a single transaction whose direction is
neither credit nor debit. -/
def c1badInput : CalcInput :=
  ⟨true, none, none, [⟨5, str "unknown", str "misc"⟩]⟩

/-- **C1** (counterexample): a list with no debit transaction yields
non-zero `totalExpenses` — a transaction with unknown direction is NOT
excluded from both sums; the `else` branch of the totals loop adds every
non-credit amount to the expenses. -/
theorem c1_counterexample :
    (calculate_financials c1badInput).totalExpenses = 5 ∧
    c1badInput.transactions.all
      (fun t => !decide (lowerList t.txnType = str "debit")) = true :=
  ⟨by with_unfolding_all rfl, by with_unfolding_all rfl⟩

/-- **C1** (amended): each transaction's absolute amount is added to
`total_income` exactly when its direction (lower-cased) is credit, and to
`total_expenses` exactly when it is anything else — debit and
unknown/unresolved alike; every transaction is returned unchanged in the
output list and counted in `transactionCount`. -/
theorem c1_amended_totals (inp : CalcInput)
    (h1 : inp.is_financial_statement = true) (h2 : inp.transactions ≠ []) :
    (calculate_financials inp).totalIncome = round2 (sumCreditAbs inp.transactions) ∧
    (calculate_financials inp).totalExpenses = round2 (sumNonCreditAbs inp.transactions) ∧
    (calculate_financials inp).transactions = inp.transactions ∧
    (calculate_financials inp).transactionCount = inp.transactions.length := by
  have hne : inp.transactions.isEmpty = false := by
    simpa [List.isEmpty_iff] using h2
  have htot := calcStep_foldl_totals inp.transactions 0 0 [] []
  simp only [calculate_financials, h1, hne, Bool.not_true, Bool.false_eq_true,
    if_false]
  refine ⟨?_, ?_, trivial, trivial⟩
  · simp only [calcTotals] at htot ⊢
    rw [htot.1, zero_add]
  · simp only [calcTotals] at htot ⊢
    rw [htot.2, zero_add]

/-- A concrete mixed-direction input for the C1 witness. -/
def c1exInput : CalcInput :=
  ⟨true, none, none,
   [⟨10, str "credit", str "salary"⟩, ⟨5, str "unknown", str "misc"⟩,
    ⟨3, str "debit", str "food"⟩]⟩

/-- Witness for C1 (amended) at a concrete input: income 10 (the credit),
expenses 8 (the debit plus the unknown). -/
theorem c1_amended_totals_witness :
    (calculate_financials c1exInput).totalIncome = round2 (sumCreditAbs c1exInput.transactions) ∧
    (calculate_financials c1exInput).totalExpenses = round2 (sumNonCreditAbs c1exInput.transactions) ∧
    round2 (sumCreditAbs c1exInput.transactions) = 10 ∧
    round2 (sumNonCreditAbs c1exInput.transactions) = 8 := by
  have h := c1_amended_totals c1exInput rfl (List.cons_ne_nil _ _)
  exact ⟨h.1, h.2.1, by with_unfolding_all rfl, by with_unfolding_all rfl⟩

/-! ## Claim C5 : balance reconciliation -/

/-- Rounding at two decimals fixes integer multiples of 1/100. -/
theorem round2_intCast_div (n : ℤ) : round2 ((n : ℚ) / 100) = (n : ℚ) / 100 := by
  unfold round2
  have h : ((n : ℚ) / 100) * 100 = (n : ℚ) := by field_simp
  rw [h, round_intCast]

/-- Rounding at two decimals is idempotent. -/
theorem round2_idem (x : ℚ) : round2 (round2 x) = round2 x := by
  have h : round2 x = ((round (x * 100) : ℤ) : ℚ) / 100 := rfl
  rw [h, round2_intCast_div]

/-- Adding an integer multiple of 1/100 commutes with rounding at two
decimals. -/
theorem round2_add_int_div (x : ℚ) (n : ℤ) :
    round2 (x + (n : ℚ) / 100) = round2 x + (n : ℚ) / 100 := by
  unfold round2
  have h : (x + (n : ℚ) / 100) * 100 = x * 100 + (n : ℚ) := by
    field_simp
  rw [h, round_add_int]
  push_cast
  ring

/-- Adding a difference of two-decimal roundings commutes with rounding at
two decimals. -/
theorem round2_add_round2_sub (y a b : ℚ) :
    round2 (y + (round2 a - round2 b)) = round2 y + (round2 a - round2 b) := by
  have h : round2 a - round2 b =
      ((round (a * 100) - round (b * 100) : ℤ) : ℚ) / 100 := by
    unfold round2
    push_cast
    ring
  rw [h, round2_add_int_div]

/-- **C5**: with a non-empty transaction list, a provided opening balance
and no closing balance, the output closing balance is
`round2 (opening + totalIncome - totalExpenses)`; with neither balance
provided, both outputs are 0 and the call succeeds. -/
theorem c5_closing_balance (inp : CalcInput)
    (h1 : inp.is_financial_statement = true) (h2 : inp.transactions ≠ []) :
    (∀ ob : ℚ, inp.opening_balance = some ob → inp.closing_balance = none →
      (calculate_financials inp).closingBalance =
        round2 (ob + ((calculate_financials inp).totalIncome
                  - (calculate_financials inp).totalExpenses))) ∧
    (inp.opening_balance = none → inp.closing_balance = none →
      (calculate_financials inp).openingBalance = 0 ∧
      (calculate_financials inp).closingBalance = 0 ∧
      (calculate_financials inp).success = true) := by
  have hne : inp.transactions.isEmpty = false := by
    simpa [List.isEmpty_iff] using h2
  constructor
  · intro ob hob hcb
    simp only [calculate_financials, h1, hne, hob, hcb, Bool.not_true,
      Bool.false_eq_true, if_false, Option.map, Option.getD]
    rw [add_sub_assoc, round2_add_round2_sub, round2_idem, round2_add_round2_sub]
  · intro hob hcb
    refine ⟨?_, ?_, ?_⟩ <;>
      simp [calculate_financials, h1, hne, hob, hcb, Option.map, Option.getD]

/-- The reconciliation-scenario input for the C5 witness. -/
def c5exInput : CalcInput :=
  ⟨true, some 100000, none,
   [⟨20000, str "credit", str "salary"⟩, ⟨5000, str "debit", str "food"⟩]⟩

/-- A no-balances input for the C5 witness. -/
def c5exInput2 : CalcInput :=
  ⟨true, none, none, [⟨1, str "debit", str "other"⟩]⟩

/-- Witness for C5: opening 100000, income 20000, expenses 5000 and no
closing balance yields 115000; with neither balance both outputs are 0. -/
theorem c5_closing_balance_witness :
    (calculate_financials c5exInput).closingBalance =
      round2 (100000 + ((calculate_financials c5exInput).totalIncome
                - (calculate_financials c5exInput).totalExpenses)) ∧
    (calculate_financials c5exInput).closingBalance = 115000 ∧
    (calculate_financials c5exInput2).openingBalance = 0 ∧
    (calculate_financials c5exInput2).closingBalance = 0 ∧
    (calculate_financials c5exInput2).success = true := by
  have ha := (c5_closing_balance c5exInput rfl (List.cons_ne_nil _ _)).1 100000 rfl rfl
  have hb := (c5_closing_balance c5exInput2 rfl (List.cons_ne_nil _ _)).2 rfl rfl
  exact ⟨ha, by with_unfolding_all rfl, hb.1, hb.2.1, hb.2.2⟩

/-! ## Claim C6 : empty input and absence of transaction lines -/

/-- **C6**: parsing the empty string reports a non-statement with an empty
transaction list, and in general any text without transaction lines (even
after the relaxed retry) does. -/
theorem c6_no_transactions :
    ((parse_transactions (str "")).is_financial_statement = false ∧
     (parse_transactions (str "")).transactions = []) ∧
    (∀ text : List Char, transactionLinesWithRetry text = [] →
      (parse_transactions text).is_financial_statement = false ∧
      (parse_transactions text).transactions = []) := by
  constructor
  · exact ⟨by with_unfolding_all rfl, by with_unfolding_all rfl⟩
  · intro text h
    simp [parse_transactions, h, parseRawLoop, resolvePass]

/-- Witness for C6: a text with no date or amount has no transaction
lines, so the general part applies to it. -/
theorem c6_no_transactions_witness :
    transactionLinesWithRetry (str "hello world") = [] ∧
    (parse_transactions (str "hello world")).is_financial_statement = false ∧
    (parse_transactions (str "hello world")).transactions = [] := by
  have h : transactionLinesWithRetry (str "hello world") = [] := by
    with_unfolding_all rfl
  have h2 := c6_no_transactions.2 (str "hello world") h
  exact ⟨h, h2.1, h2.2⟩

/-! ## Claim C10 : the statement's closing balance -/

/-- **C10**: whenever at least one transaction is produced, the result's
closing balance is the trailing balance of the last transaction,
regardless of what the summary extractor resolved; the summary's closing
balance is used only when the transaction list is empty. -/
theorem c10_closing_from_last (text : List Char) :
    (∀ t : Txn, (parse_transactions text).transactions.getLast? = some t →
      (parse_transactions text).closing_balance = some t.closing_balance) ∧
    ((parse_transactions text).transactions = [] →
      (parse_transactions text).closing_balance =
        (extract_statement_summary text).bind (fun s => s.closing_balance)) := by
  constructor
  · intro t ht
    simp only [parse_transactions] at ht ⊢
    rw [ht]
    rfl
  · intro ht
    simp only [parse_transactions] at ht ⊢
    rw [ht]
    cases hs : extract_statement_summary text <;> simp [Option.bind]

/-- The witness text for C10: the summary extractor resolves closing
balance 999.00, but the transaction's trailing balance 148000.00 wins. -/
def c10text : List Char :=
  str "closing balance 999.00\n02/11/2025 ATM WDL 2000.00 0.00 148000.00"

/-- Witness for C10: at the concrete text the last transaction's trailing
balance 148000 is returned even though the summary resolved 999. -/
theorem c10_closing_from_last_witness :
    (parse_transactions c10text).transactions.getLast?.map (fun t => t.closing_balance)
      = some 148000 ∧
    (extract_statement_summary c10text).bind (fun s => s.closing_balance) = some 999 ∧
    (parse_transactions c10text).closing_balance = some 148000 := by
  have hlast : (parse_transactions c10text).transactions.getLast? =
      some { date := str "02/11/2025", description := str "ATM WDL",
             reference := [], amount := 2000, closing_balance := 148000,
             txnType := str "unknown", category := none } := by
    with_unfolding_all rfl
  refine ⟨by rw [hlast]; rfl, by with_unfolding_all rfl, ?_⟩
  exact (c10_closing_from_last c10text).1 _ hlast

/-! ## Claim C9 : statement summary result shape -/

/-- **C9** (counterexample): a text in which only total debits resolve
(to 100.00) but neither balance does makes the extractor return `none` —
the resolved total is discarded, not returned in a `StatementSummary`. -/
theorem c9_counterexample :
    extract_statement_summary (str "Total Debits 100.00") = none ∧
    (summaryFields (str "Total Debits 100.00")).2.2.1 = some 100 :=
  ⟨by with_unfolding_all rfl, by with_unfolding_all rfl⟩

/-- **C9** (amended): the extractor totally computes the four optional
fields, leaving `none` for anything unresolved, and returns a
`StatementSummary` containing exactly those fields iff an opening or a
closing balance was resolved; when neither balance resolves it returns
`none`, discarding any resolved totals. -/
theorem c9_amended_summary (text : List Char) :
    (extract_statement_summary text = none →
      (summaryFields text).1 = none ∧ (summaryFields text).2.1 = none) ∧
    (∀ s : StatementSummary, extract_statement_summary text = some s →
      s.opening_balance = (summaryFields text).1 ∧
      s.closing_balance = (summaryFields text).2.1 ∧
      s.total_debits = (summaryFields text).2.2.1 ∧
      s.total_credits = (summaryFields text).2.2.2 ∧
      (s.opening_balance.isSome ∨ s.closing_balance.isSome)) := by
  by_cases h : ((summaryFields text).1.isSome || (summaryFields text).2.1.isSome) = true
  · constructor
    · intro hn
      simp only [extract_statement_summary, h, if_true] at hn
      exact absurd hn (by simp)
    · intro s hs
      simp only [extract_statement_summary, h, if_true, Option.some.injEq] at hs
      subst hs
      refine ⟨rfl, rfl, rfl, rfl, ?_⟩
      simpa using Bool.or_eq_true_iff.mp h
  · constructor
    · intro _
      have h2 := h
      simp only [Bool.or_eq_true_iff, not_or, Bool.not_eq_true] at h2
      exact ⟨Option.not_isSome_iff_eq_none.mp (by simp [h2.1]),
             Option.not_isSome_iff_eq_none.mp (by simp [h2.2])⟩
    · intro s hs
      simp only [extract_statement_summary, h, if_false] at hs
      exact absurd hs (by simp)

/-- Witness for C9: a text resolving only the opening balance yields a
summary whose other three fields are `none`. -/
theorem c9_amended_summary_witness :
    extract_statement_summary (str "opening balance 50.00") =
      some ⟨some 50, none, none, none⟩ ∧
    ((some 50 : Option ℚ) = (summaryFields (str "opening balance 50.00")).1 ∧
     (none : Option ℚ) = (summaryFields (str "opening balance 50.00")).2.1 ∧
     ((some 50 : Option ℚ).isSome ∨ (none : Option ℚ).isSome)) := by
  have h : extract_statement_summary (str "opening balance 50.00") =
      some ⟨some 50, none, none, none⟩ := by with_unfolding_all rfl
  have h2 := (c9_amended_summary (str "opening balance 50.00")).2 _ h
  exact ⟨h, h2.1, h2.2.1, h2.2.2.2.2⟩

/-! ## Claim C7 : breakdown conservation -/

/-- An exact number of cents: an integer multiple of 1/100. -/
def IsCents (x : ℚ) : Prop := ∃ n : ℤ, x = (n : ℚ) / 100

theorem isCents_zero : IsCents 0 := ⟨0, by norm_num⟩

theorem isCents_add {x y : ℚ} (hx : IsCents x) (hy : IsCents y) : IsCents (x + y) := by
  obtain ⟨n, rfl⟩ := hx
  obtain ⟨m, rfl⟩ := hy
  exact ⟨n + m, by push_cast; ring⟩

theorem isCents_abs {x : ℚ} (hx : IsCents x) : IsCents |x| := by
  obtain ⟨n, rfl⟩ := hx
  exact ⟨|n|, by rw [abs_div]; push_cast; norm_num⟩

theorem round2_eq_self_of_isCents {x : ℚ} (h : IsCents x) : round2 x = x := by
  obtain ⟨n, rfl⟩ := h
  exact round2_intCast_div n

/-- A dict update adds its amount to the sum of the values. -/
theorem sumVals_addToBreakdown (bd : List (List Char × ℚ)) (cat : List Char) (a : ℚ) :
    sumVals (addToBreakdown bd cat a) = sumVals bd + a := by
  induction bd with
  | nil => simp [addToBreakdown, sumVals]
  | cons p t ih =>
    obtain ⟨k, v⟩ := p
    by_cases h : k = cat
    · simp [addToBreakdown, h, sumVals]
      ring
    · simp only [addToBreakdown, if_neg h, sumVals, List.map_cons, List.sum_cons]
      simp only [sumVals] at ih
      rw [ih]
      ring

/-- A dict update keeps all values in cents when the added amount is. -/
theorem cents_addToBreakdown {bd : List (List Char × ℚ)} {cat : List Char} {a : ℚ}
    (hb : ∀ p ∈ bd, IsCents p.2) (ha : IsCents a) :
    ∀ p ∈ addToBreakdown bd cat a, IsCents p.2 := by
  induction bd with
  | nil =>
    intro p hp
    simp only [addToBreakdown, List.mem_singleton] at hp
    subst hp
    exact isCents_add isCents_zero ha
  | cons q t ih =>
    obtain ⟨k, v⟩ := q
    intro p hp
    by_cases h : k = cat
    · simp only [addToBreakdown, if_pos h, List.mem_cons] at hp
      rcases hp with rfl | hp
      · exact isCents_add (hb (k, v) (List.mem_cons_self _ _)) ha
      · exact hb p (List.mem_cons_of_mem _ hp)
    · simp only [addToBreakdown, if_neg h, List.mem_cons] at hp
      rcases hp with rfl | hp
      · exact hb (k, v) (List.mem_cons_self _ _)
      · exact ih (fun q hq => hb q (List.mem_cons_of_mem _ hq)) p hp

/-- Through the totals loop, the income equals the sum of the income
breakdown and the expenses the sum of the category breakdown. -/
theorem calcStep_foldl_conservation (l : List CalcTxn) (i e : ℚ)
    (cb ib : List (List Char × ℚ)) (h1 : i = sumVals ib) (h2 : e = sumVals cb) :
    (List.foldl calcStep (i, e, cb, ib) l).1 =
      sumVals (List.foldl calcStep (i, e, cb, ib) l).2.2.2 ∧
    (List.foldl calcStep (i, e, cb, ib) l).2.1 =
      sumVals (List.foldl calcStep (i, e, cb, ib) l).2.2.1 := by
  induction l generalizing i e cb ib with
  | nil => exact ⟨h1, h2⟩
  | cons t rest ih =>
    simp only [List.foldl_cons, calcStep]
    by_cases h : lowerList t.txnType = str "credit"
    · rw [if_pos h]
      exact ih _ _ _ _ (by rw [sumVals_addToBreakdown, h1]) h2
    · rw [if_neg h]
      exact ih _ _ _ _ h1 (by rw [sumVals_addToBreakdown, h2])

/-- Through the totals loop, all accumulated quantities stay in cents when
every transaction amount is in cents. -/
theorem calcStep_foldl_cents (l : List CalcTxn) (i e : ℚ)
    (cb ib : List (List Char × ℚ)) (hl : ∀ t ∈ l, IsCents t.amount)
    (hi : IsCents i) (he : IsCents e)
    (hcb : ∀ p ∈ cb, IsCents p.2) (hib : ∀ p ∈ ib, IsCents p.2) :
    IsCents (List.foldl calcStep (i, e, cb, ib) l).1 ∧
    IsCents (List.foldl calcStep (i, e, cb, ib) l).2.1 ∧
    (∀ p ∈ (List.foldl calcStep (i, e, cb, ib) l).2.2.1, IsCents p.2) ∧
    (∀ p ∈ (List.foldl calcStep (i, e, cb, ib) l).2.2.2, IsCents p.2) := by
  induction l generalizing i e cb ib with
  | nil => exact ⟨hi, he, hcb, hib⟩
  | cons t rest ih =>
    have hat : IsCents |t.amount| := isCents_abs (hl t (List.mem_cons_self _ _))
    have hrest : ∀ u ∈ rest, IsCents u.amount :=
      fun u hu => hl u (List.mem_cons_of_mem _ hu)
    simp only [List.foldl_cons, calcStep]
    by_cases h : lowerList t.txnType = str "credit"
    · rw [if_pos h]
      exact ih _ _ _ _ hrest (isCents_add hi hat) he hcb
        (cents_addToBreakdown hib hat)
    · rw [if_neg h]
      exact ih _ _ _ _ hrest hi (isCents_add he hat)
        (cents_addToBreakdown hcb hat) hib

/-- Rounding every value of a breakdown whose values are cents changes
nothing about the sum. -/
theorem sumVals_map_round2 {bd : List (List Char × ℚ)}
    (h : ∀ p ∈ bd, IsCents p.2) :
    sumVals (bd.map (fun p => (p.1, round2 p.2))) = sumVals bd := by
  induction bd with
  | nil => rfl
  | cons p t ih =>
    simp only [List.map_cons, sumVals, List.sum_cons]
    simp only [sumVals] at ih
    rw [round2_eq_self_of_isCents (h p (List.mem_cons_self _ _)),
      ih (fun q hq => h q (List.mem_cons_of_mem _ hq))]

/-- Insertion keeps the sum of the values. -/
theorem sumVals_insertDesc (x : List Char × ℚ) (l : List (List Char × ℚ)) :
    sumVals (insertDesc x l) = x.2 + sumVals l := by
  induction l with
  | nil => simp [insertDesc, sumVals]
  | cons y t ih =>
    by_cases h : y.2 < x.2
    · simp [insertDesc, h, sumVals]
    · simp only [insertDesc, if_neg h, sumVals, List.map_cons, List.sum_cons]
      simp only [sumVals] at ih
      rw [ih]
      ring

/-- Sorting a breakdown keeps the sum of the values. -/
theorem sumVals_sortBreakdown (l : List (List Char × ℚ)) :
    sumVals (sortBreakdown l) = sumVals l := by
  suffices h : ∀ acc : List (List Char × ℚ),
      sumVals (l.foldl (fun acc x => insertDesc x acc) acc) = sumVals acc + sumVals l by
    simpa [sortBreakdown, sumVals] using h []
  induction l with
  | nil => intro acc; simp [sumVals]
  | cons x t ih =>
    intro acc
    rw [List.foldl_cons, ih (insertDesc x acc), sumVals_insertDesc]
    have hx : sumVals (x :: t) = x.2 + sumVals t := by simp [sumVals]
    rw [hx]
    ring

/-- The input refuting C7: five debit transactions of 0.004 in five
distinct categories.  Each category value rounds to 0.00, but the total
0.02 survives rounding, so the sums differ by 0.02 > 0.01. -/
def c7badInput : CalcInput :=
  ⟨true, none, none,
   [⟨1/250, str "debit", str "a"⟩, ⟨1/250, str "debit", str "b"⟩,
    ⟨1/250, str "debit", str "c"⟩, ⟨1/250, str "debit", str "d"⟩,
    ⟨1/250, str "debit", str "e"⟩]⟩

/-- **C7** (counterexample): per-category rounding loses each 0.004 while
the rounded total keeps 0.02, exceeding the claimed 0.01 tolerance. -/
theorem c7_counterexample :
    ¬ |sumVals (calculate_financials c7badInput).categoryBreakdown
        - (calculate_financials c7badInput).totalExpenses| ≤ 1 / 100 := by
  have h1 : sumVals (calculate_financials c7badInput).categoryBreakdown = 0 := by
    with_unfolding_all rfl
  have h2 : (calculate_financials c7badInput).totalExpenses = 1 / 50 := by
    with_unfolding_all rfl
  rw [h1, h2, zero_sub, abs_neg, abs_of_pos (by norm_num : (0 : ℚ) < 1 / 50)]
  norm_num

/-- **C7** (amended): when every transaction amount is an integer multiple
of 0.01 — as any amount printed with two decimals is — the sum of the
category breakdown equals `totalExpenses` exactly and the sum of the
income breakdown equals `totalIncome` exactly (hence within any
tolerance); for amounts with more precision the 0.01 bound can fail. -/
theorem c7_amended_conservation (inp : CalcInput)
    (h1 : inp.is_financial_statement = true) (h2 : inp.transactions ≠ [])
    (h3 : ∀ t ∈ inp.transactions, IsCents t.amount) :
    sumVals (calculate_financials inp).categoryBreakdown =
      (calculate_financials inp).totalExpenses ∧
    sumVals (calculate_financials inp).incomeBreakdown =
      (calculate_financials inp).totalIncome := by
  have hne : inp.transactions.isEmpty = false := by
    simpa [List.isEmpty_iff] using h2
  have hcons := calcStep_foldl_conservation inp.transactions 0 0 [] [] rfl rfl
  have hcents := calcStep_foldl_cents inp.transactions 0 0 [] [] h3
    isCents_zero isCents_zero (by simp) (by simp)
  simp only [calculate_financials, h1, hne, Bool.not_true, Bool.false_eq_true,
    if_false]
  simp only [calcTotals] at hcons hcents ⊢
  constructor
  · rw [sumVals_sortBreakdown, sumVals_map_round2 hcents.2.2.1, ← hcons.2,
      round2_eq_self_of_isCents hcents.2.1]
  · rw [sumVals_sortBreakdown, sumVals_map_round2 hcents.2.2.2, ← hcons.1,
      round2_eq_self_of_isCents hcents.1]

/-- A concrete input for the C7 witness: amounts with two decimals in
repeated and distinct categories. -/
def c7exInput : CalcInput :=
  ⟨true, none, none,
   [⟨25/2, str "debit", str "food"⟩, ⟨3, str "credit", str "salary"⟩,
    ⟨1/4, str "debit", str "food"⟩, ⟨7, str "debit", str "travel"⟩]⟩

/-- Witness for C7 (amended) at a concrete input: expenses 19.75 split as
food 12.75 and travel 7.00; income 3.00 in one category. -/
theorem c7_amended_conservation_witness :
    sumVals (calculate_financials c7exInput).categoryBreakdown =
      (calculate_financials c7exInput).totalExpenses ∧
    sumVals (calculate_financials c7exInput).incomeBreakdown =
      (calculate_financials c7exInput).totalIncome ∧
    (calculate_financials c7exInput).totalExpenses = 79 / 4 := by
  have h := c7_amended_conservation c7exInput rfl (List.cons_ne_nil _ _) ?_
  · exact ⟨h.1, h.2, by with_unfolding_all rfl⟩
  · intro t ht
    simp only [c7exInput, List.mem_cons, List.not_mem_nil, or_false] at ht
    rcases ht with rfl | rfl | rfl | rfl
    · exact ⟨1250, by norm_num⟩
    · exact ⟨300, by norm_num⟩
    · exact ⟨25, by norm_num⟩
    · exact ⟨700, by norm_num⟩

/-! ## Claim C8 : non-negative amounts -/

/-- A raw transaction whose amount, when set, is non-negative. -/
def RawAmtOK (r : RawTxn) : Prop := ∀ a : ℚ, r.amount = some a → 0 ≤ a

/-- Every amount kept by `extract_all_amounts` is strictly positive. -/
theorem extract_all_amounts_pos (line : List Char) :
    ∀ m ∈ extract_all_amounts line, 0 < m.1 := by
  intro m hm
  simp only [extract_all_amounts, List.mem_filterMap] at hm
  obtain ⟨a, _, ha⟩ := hm
  by_cases h : parse_amount a.1 > 0
  · rw [if_pos h] at ha
    cases ha
    exact h
  · rw [if_neg h] at ha
    cases ha

/-- Indexing with the zero default into a list of positive amounts is
non-negative. -/
theorem getD_fst_nonneg (l : List (ℚ × Option (List Char))) (i : Nat)
    (h : ∀ m ∈ l, 0 < m.1) : 0 ≤ (l.getD i (0, none)).1 := by
  rw [List.getD_eq_getElem?_getD]
  by_cases hi : i < l.length
  · rw [List.getElem?_eq_getElem hi]
    exact (h _ (List.getElem_mem hi)).le
  · rw [List.getElem?_eq_none (Nat.le_of_not_lt hi)]
    exact le_refl 0

/-- The amount chosen by `classifyAmounts` from a list of positive
amounts is non-negative. -/
theorem classifyAmounts_nonneg (amounts : List (ℚ × Option (List Char)))
    (h : ∀ m ∈ amounts, 0 < m.1) :
    ∀ a : ℚ, (classifyAmounts amounts).2 = some a → 0 ≤ a := by
  intro a ha
  unfold classifyAmounts at ha
  simp only [] at ha
  split_ifs at ha <;> cases ha <;> exact getD_fst_nonneg _ _ h

/-- The amount extracted by `parse_transaction_line`, when set, is
non-negative. -/
theorem parse_transaction_line_amt (line p n : List Char) (r : RawTxn)
    (hr : parse_transaction_line line p n = some r) : RawAmtOK r := by
  unfold parse_transaction_line at hr
  simp only [] at hr
  split at hr
  · exact absurd hr (by simp)
  · split at hr
    · exact absurd hr (by simp)
    · split at hr
      · exact absurd hr (by simp)
      · injection hr with hr
        subst hr
        intro a ha
        exact classifyAmounts_nonneg _ (extract_all_amounts_pos _) a ha

/-- Appending description text to the last raw transaction does not
change any amount. -/
theorem appendToLastDesc_ok (acc : List RawTxn) (txt : List Char)
    (h : ∀ r ∈ acc, RawAmtOK r) : ∀ r ∈ appendToLastDesc acc txt, RawAmtOK r := by
  unfold appendToLastDesc
  cases hl : acc.getLast? with
  | none => exact h
  | some last =>
    intro r hr
    rcases List.mem_append.mp hr with h1 | h1
    · exact h r (List.dropLast_subset acc h1)
    · have hr2 : r = { last with description := last.description ++ [' '] ++ txt } := by
        simpa using h1
      subst hr2
      have hmem : last ∈ acc := by
        obtain ⟨hne, heq⟩ := List.mem_getLast?_eq_getLast (Option.mem_def.mpr hl)
        subst heq
        exact List.getLast_mem hne
      intro a ha
      exact h last hmem a ha

/-- Appending the possibly-parsed transaction of one line preserves the
amount invariant. -/
theorem append_parsed_ok (acc : List RawTxn) (h : ∀ r ∈ acc, RawAmtOK r)
    (line p n : List Char) :
    ∀ r ∈ parseStepAcc acc line p n, RawAmtOK r := by
  unfold parseStepAcc
  cases hq : parse_transaction_line line p n with
  | none => exact h
  | some q =>
    intro r hr
    rcases List.mem_append.mp hr with h1 | h1
    · exact h r h1
    · rw [List.mem_singleton] at h1
      subst h1
      exact parse_transaction_line_amt _ _ _ _ hq

/-- Every raw transaction produced by the main parsing loop has an unset
or non-negative amount. -/
theorem parseRawLoop_ok (lines : List (List Char)) (tl : List (Nat × List Char))
    (acc : List RawTxn) (h : ∀ r ∈ acc, RawAmtOK r) :
    ∀ r ∈ parseRawLoop lines tl acc, RawAmtOK r := by
  induction tl generalizing acc with
  | nil => exact h
  | cons p rest ih =>
    obtain ⟨line_num, line⟩ := p
    simp only [parseRawLoop]
    apply ih
    split <;> split <;>
      first
        | exact appendToLastDesc_ok _ _ (append_parsed_ok acc h _ _ _)
        | exact append_parsed_ok acc h _ _ _

/-- The resolver step produces a non-negative amount from a raw
transaction satisfying the invariant. -/
theorem resolveOne_amount_nonneg (prev : Option ℚ) (txn : RawTxn)
    (h : RawAmtOK txn) : 0 ≤ (resolveOne prev txn).amount := by
  unfold resolveOne
  cases ha : txn.amount with
  | some a =>
    cases prev <;> simp only [ha] <;> exact h a ha
  | none =>
    cases prev <;> simp only [ha]
    · exact le_refl 0
    · exact abs_nonneg _

/-- All finalized transactions of the resolver pass have non-negative
amounts. -/
theorem resolvePass_nonneg (prev : Option ℚ) (l : List RawTxn)
    (h : ∀ r ∈ l, RawAmtOK r) : ∀ t ∈ resolvePass prev l, 0 ≤ t.amount := by
  induction l generalizing prev with
  | nil =>
    intro t ht
    cases ht
  | cons r rest ih =>
    intro t ht
    simp only [resolvePass, List.mem_cons] at ht
    rcases ht with rfl | ht
    · exact resolveOne_amount_nonneg _ _ (h r (List.mem_cons_self _ _))
    · exact ih _ (fun q hq => h q (List.mem_cons_of_mem _ hq)) t ht

theorem sumCreditAbs_nonneg (l : List CalcTxn) : 0 ≤ sumCreditAbs l := by
  apply List.sum_nonneg
  intro x hx
  simp only [List.mem_map] at hx
  obtain ⟨t, _, rfl⟩ := hx
  exact abs_nonneg _

theorem sumNonCreditAbs_nonneg (l : List CalcTxn) : 0 ≤ sumNonCreditAbs l := by
  apply List.sum_nonneg
  intro x hx
  simp only [List.mem_map] at hx
  obtain ⟨t, _, rfl⟩ := hx
  exact abs_nonneg _

/-- Rounding at two decimals preserves non-negativity. -/
theorem round2_nonneg {x : ℚ} (h : 0 ≤ x) : 0 ≤ round2 x := by
  unfold round2
  have h1 : (0 : ℤ) ≤ round (x * 100) := by
    rw [round_eq]
    refine Int.le_floor.mpr ?_
    push_cast
    linarith
  have h2 : (0 : ℚ) ≤ ((round (x * 100) : ℤ) : ℚ) := by exact_mod_cast h1
  exact div_nonneg h2 (by norm_num)

/-- **C8**: every transaction returned by `parse_transactions` has a
non-negative amount (extracted amounts are filtered positive, derived
amounts are absolute differences, unresolved amounts default to 0), and
the aggregator's totals, computed from absolute values, are non-negative
for every input. -/
theorem c8_amount_nonneg :
    (∀ (text : List Char) (t : Txn),
        t ∈ (parse_transactions text).transactions → 0 ≤ t.amount) ∧
    (∀ inp : CalcInput, 0 ≤ (calculate_financials inp).totalIncome ∧
        0 ≤ (calculate_financials inp).totalExpenses) := by
  constructor
  · intro text t ht
    have hraw := parseRawLoop_ok (splitLines text) (transactionLinesWithRetry text) []
      (by intro r hr; cases hr)
    simp only [parse_transactions] at ht
    exact resolvePass_nonneg _ _ hraw t ht
  · intro inp
    by_cases h1 : inp.is_financial_statement = true
    · by_cases h2 : inp.transactions.isEmpty = true
      · simp [calculate_financials, h1, h2]
      · have h2f : inp.transactions.isEmpty = false := by simpa using h2
        have ht1 : (calcTotals inp.transactions).1 = sumCreditAbs inp.transactions := by
          have := (calcStep_foldl_totals inp.transactions 0 0 [] []).1
          simpa [calcTotals] using this
        have ht2 : (calcTotals inp.transactions).2.1 = sumNonCreditAbs inp.transactions := by
          have := (calcStep_foldl_totals inp.transactions 0 0 [] []).2
          simpa [calcTotals] using this
        simp only [calculate_financials, h1, h2f, Bool.not_true, Bool.false_eq_true,
          if_false]
        rw [ht1, ht2]
        exact ⟨round2_nonneg (sumCreditAbs_nonneg _),
               round2_nonneg (sumNonCreditAbs_nonneg _)⟩
    · have h1f : inp.is_financial_statement = false := by simpa using h1
      simp [calculate_financials, h1f]

/-- The single-transaction witness text for C8. -/
def c8text : List Char := str "02/11/2025 ATM WDL 2000.00 0.00 148000.00"

/-- The transaction parsed from `c8text`. -/
def c8txn : Txn :=
  ⟨str "02/11/2025", str "ATM WDL", [], 2000, 148000, str "unknown", none⟩

/-- A single-debit calculator input for the C8 witness. -/
def c8inp : CalcInput := ⟨true, none, none, [⟨2, str "debit", str "other"⟩]⟩

/-- Witness for C8: the concrete parsed transaction has a non-negative
amount, and the concrete aggregation has non-negative totals. -/
theorem c8_amount_nonneg_witness :
    c8txn ∈ (parse_transactions c8text).transactions ∧ 0 ≤ c8txn.amount ∧
    0 ≤ (calculate_financials c8inp).totalExpenses := by
  have hm : c8txn ∈ (parse_transactions c8text).transactions := by
    have he : (parse_transactions c8text).transactions = [c8txn] := by
      with_unfolding_all rfl
    rw [he]
    exact List.mem_singleton.mpr rfl
  exact ⟨hm, c8_amount_nonneg.1 c8text c8txn hm, (c8_amount_nonneg.2 c8inp).2⟩

end FSA
